import Mathlib

/-!
Verification development for the fullcontrol-workspace G-code
cross-section pipeline.  The definitions below are a shallow embedding of
`src/validate_gcode_geometry.py` and `src/visualize_gcode_cli.py`:

* lines of the motion stream are `List Char`;
* Python floats are modelled as `ℚ`, with `float(...)` parsing of the
  substrings matched by the regex `[-\d.]+` modelled as an `Option ℚ`
  (Python raises `ValueError` on e.g. `1.2.3`, modelled as `none`);
* a whole parse that raises is `Except.error ()`, a successful parse is
  `Except.ok`.
-/

/-- A raw text line of the motion stream, as a list of characters. -/
abbrev Line := List Char

/-- Whitespace characters removed by Python's `str.strip()` (ASCII cases). -/
def isStripChar (c : Char) : Bool :=
  c = ' ' || c = '\t' || c = '\n' || c = '\r'

/-- `line.strip()`: drop leading and trailing whitespace. -/
def stripLine (l : Line) : Line :=
  ((l.dropWhile isStripChar).reverse.dropWhile isStripChar).reverse

/-- `line.split(';')[0]`: keep everything before the first `;`. -/
def stripComment (l : Line) : Line :=
  l.takeWhile (fun c => c ≠ ';')

/-- `line.strip().split(';')[0]`, the preprocessing both parsers apply. -/
def preprocess (l : Line) : Line :=
  stripComment (stripLine l)

/-- Characters of the regex character class `[-\d.]`. -/
def isNumChar (c : Char) : Bool :=
  c.isDigit || c = '.' || c = '-'

/-- `re.search(r'A([-\d.]+)', line)` for an axis letter `a`: the group of
the leftmost match, i.e. the maximal nonempty run of `[-\d.]` characters
right after the first occurrence of `a` that is followed by such a run. -/
def searchCoord (a : Char) : Line → Option Line
  | [] => none
  | c :: rest =>
    if c = a then
      let run := rest.takeWhile isNumChar
      if run.isEmpty then searchCoord a rest else some run
    else searchCoord a rest

/-- Value of a digit string as a natural number (digits only). -/
def digitsToNat (l : Line) : Nat :=
  l.foldl (fun n c => 10 * n + (c.toNat - 48)) 0

/-- Whether an unsigned body is accepted by Python's `float`: only digits
and at most one dot, and at least one digit. -/
def validMantissa (l : Line) : Bool :=
  l.all (fun c => c.isDigit || c = '.') &&
    (l.filter (fun c => c = '.')).length ≤ 1 &&
    l.any (fun c => c.isDigit)

/-- Value of a valid unsigned mantissa `intpart[.fracpart]` as a rational. -/
def mantissaVal (l : Line) : ℚ :=
  let ip := l.takeWhile (fun c => c.isDigit)
  let frac := (l.drop ip.length).drop 1
  (digitsToNat ip : ℚ) + (digitsToNat frac : ℚ) / (10 : ℚ) ^ frac.length

/-- Python `float(s)` restricted to strings over `[-\d.]` (the only ones
the coordinate regex can produce): an optional leading minus sign followed
by a valid mantissa; anything else (e.g. `1.2.3`, `-`, `.`) raises, which
is modelled as `none`. -/
def pyFloat (l : Line) : Option ℚ :=
  match l with
  | [] => none
  | c :: rest =>
    if c = '-' then
      if validMantissa rest then some (-(mantissaVal rest)) else none
    else
      if validMantissa l then some (mantissaVal l) else none

/-- Extract the ordinate for axis letter `a` from a line: `Except.ok none`
when the regex does not match, `Except.ok (some v)` when the matched group
parses as a float, and `Except.error ()` when `float` raises on the
matched group (which aborts the whole Python parse). -/
def getOrd (a : Char) (l : Line) : Except Unit (Option ℚ) :=
  match searchCoord a l with
  | none => Except.ok none
  | some s =>
    match pyFloat s with
    | none => Except.error ()
    | some v => Except.ok (some v)

/-- The sticky coordinate state `current_pos` of both parsers. -/
structure MotionState where
  x : ℚ
  y : ℚ
  z : ℚ
deriving DecidableEq, Repr

/-- The initial state `{'X': 0, 'Y': 0, 'Z': 0}`. -/
def initPos : MotionState := ⟨0, 0, 0⟩

/-- The characters of the opcode `G0`. -/
def opG0 : Line := ['G', '0']

/-- The characters of the opcode `G1`. -/
def opG1 : Line := ['G', '1']

/-- `line.startswith('G0') or line.startswith('G1')`. -/
def isPosLine (l : Line) : Bool :=
  opG0.isPrefixOf l || opG1.isPrefixOf l

/-- `line.startswith('G1') and 'E' in line`. -/
def isDepLine (l : Line) : Bool :=
  opG1.isPrefixOf l && l.contains 'E'

/-- `line.startswith('G1')`. -/
def isG1Line (l : Line) : Bool :=
  opG1.isPrefixOf l

/-- Apply one positioning line's ordinate updates to the sticky state:
each present ordinate overwrites its field, absent ordinates are kept;
a malformed matched number aborts (`float` raises). -/
def updState (s : MotionState) (l : Line) : Except Unit MotionState :=
  match getOrd 'X' l, getOrd 'Y' l, getOrd 'Z' l with
  | Except.ok ox, Except.ok oy, Except.ok oz =>
    Except.ok ⟨ox.getD s.x, oy.getD s.y, oz.getD s.z⟩
  | _, _, _ => Except.error ()

/-- Parse state of `parse_gcode_detailed`: sticky position plus the list
of recorded extrusion positions, in parse order. -/
structure DetState where
  pos : MotionState
  positions : List (ℚ × ℚ × ℚ)
deriving DecidableEq, Repr

/-- The initial state of `parse_gcode_detailed`. -/
def initDet : DetState := ⟨initPos, []⟩

/-- One loop iteration of `parse_gcode_detailed` on a raw line: strip and
drop comments, skip empty lines, update the state on `G0`/`G1`-prefixed
lines, and record the (post-update) position when the line starts with
`G1` and contains `E`. -/
def stepDetailed (s : DetState) (raw : Line) : Except Unit DetState :=
  let line := preprocess raw
  if line.isEmpty then Except.ok s
  else
    match (if isPosLine line then updState s.pos line else Except.ok s.pos) with
    | Except.error e => Except.error e
    | Except.ok p =>
      if isDepLine line then
        Except.ok ⟨p, s.positions ++ [(p.x, p.y, p.z)]⟩
      else
        Except.ok ⟨p, s.positions⟩

/-- Run `parse_gcode_detailed`'s loop over a list of raw lines. -/
def runDet (s : DetState) : List Line → Except Unit DetState
  | [] => Except.ok s
  | l :: ls =>
    match stepDetailed s l with
    | Except.error e => Except.error e
    | Except.ok s' => runDet s' ls

/-- `parse_gcode_detailed`: the recorded extrusion positions of a stream,
or an error when a malformed numeric token makes `float` raise. -/
def parse_gcode_detailed (ls : List Line) : Except Unit (List (ℚ × ℚ × ℚ)) :=
  Except.map DetState.positions (runDet initDet ls)

/-- Python's `round` to an integer: round half to even (banker's
rounding), as used by `round(z, 1)` after scaling. -/
def roundHalfEven (q : ℚ) : ℤ :=
  if q - ⌊q⌋ < 1/2 then ⌊q⌋
  else if 1/2 < q - ⌊q⌋ then ⌊q⌋ + 1
  else if (2 : ℤ) ∣ ⌊q⌋ then ⌊q⌋ else ⌊q⌋ + 1

/-- `round(z, 1)`: round to one decimal place, half to even. -/
def round1 (q : ℚ) : ℚ :=
  (roundHalfEven (10 * q) : ℚ) / 10

/-- Parse state of `parse_gcode` (the CLI visualizer): sticky position
plus the recorded layer entries `(z_key, (x, y))`, in parse order.  The
grouping `positions_by_layer[z_key].append((x, y))` is recovered from the
entry list by filtering on the key. -/
structure CliState where
  pos : MotionState
  entries : List (ℚ × ℚ × ℚ)
deriving DecidableEq, Repr

/-- The initial state of `parse_gcode`. -/
def initCli : CliState := ⟨initPos, []⟩

/-- One loop iteration of `parse_gcode` on a raw line: strip and drop
comments, skip empty lines, update the state on `G0`/`G1`-prefixed lines,
and record `(round(z,1), (x, y))` for every `G1`-prefixed line (note: no
`E` check here, unlike `parse_gcode_detailed`). -/
def stepCli (s : CliState) (raw : Line) : Except Unit CliState :=
  let line := preprocess raw
  if line.isEmpty then Except.ok s
  else if isPosLine line then
    match updState s.pos line with
    | Except.error e => Except.error e
    | Except.ok p =>
      if isG1Line line then
        Except.ok ⟨p, s.entries ++ [(round1 p.z, p.x, p.y)]⟩
      else
        Except.ok ⟨p, s.entries⟩
  else Except.ok s

/-- Run `parse_gcode`'s loop over a list of raw lines. -/
def runCli (s : CliState) : List Line → Except Unit CliState
  | [] => Except.ok s
  | l :: ls =>
    match stepCli s l with
    | Except.error e => Except.error e
    | Except.ok s' => runCli s' ls

/-- `parse_gcode`: the recorded `(z_key, (x, y))` entries of a stream in
parse order, or an error when a malformed numeric token makes `float`
raise. -/
def parse_gcode (ls : List Line) : Except Unit (List (ℚ × ℚ × ℚ)) :=
  Except.map CliState.entries (runCli initCli ls)

/-- Number of lines that, after preprocessing, start with `G1` and
contain `E`: the lines `parse_gcode_detailed` records. -/
def depLineCount (ls : List Line) : Nat :=
  (ls.filter (fun raw => isDepLine (preprocess raw))).length

/-- Number of lines that, after preprocessing, start with `G1`: the lines
`parse_gcode` records. -/
def g1LineCount (ls : List Line) : Nat :=
  (ls.filter (fun raw => isG1Line (preprocess raw))).length

/-- The whitespace-delimited first token of a line (its opcode). -/
def opcodeOf (l : Line) : Line :=
  l.takeWhile (fun c => c ≠ ' ')

/-- The ordinate for axis letter `a` contributed by one raw line, when the
line is a positioning line and the ordinate parses; `none` otherwise.
Used to phrase the spec's sticky-coordinate contract ("the value from the
most recent earlier line that set it"). -/
def lineOrd (a : Char) (raw : Line) : Option ℚ :=
  let line := preprocess raw
  if isPosLine line then
    match getOrd a line with
    | Except.ok o => o
    | Except.error _ => none
  else none

/-- The most recent value set for axis letter `a` in a stream (later lines
override earlier ones), or `none` if no line sets it.  Phrases the spec's
sticky-coordinate contract for comparison with the parser state. -/
def mostRecentOrd (a : Char) : List Line → Option ℚ
  | [] => none
  | raw :: ls => (mostRecentOrd a ls).orElse (fun _ => lineOrd a raw)

/-!  Angular gap detection (`plot_cross_section`, lines 139-154).  The
`atan2`/`degrees` conversion of points to angles is transcendental, so the
embedding starts at the stage where the layer is a list of angles in
degrees (as the spec's own gap example does): `angles_deg[angles_deg < 0]
+= 360`, `np.sort`, `np.diff`, `np.argmax`. -/

/-- `angles_deg[angles_deg < 0] += 360`: normalize each angle into the
non-negative range by adding 360 to negatives. -/
def normalizeAngles (l : List ℚ) : List ℚ :=
  l.map (fun a => if a < 0 then a + 360 else a)

/-- Insert a value into an already ascending list, keeping it ascending. -/
def insertSorted (x : ℚ) : List ℚ → List ℚ
  | [] => [x]
  | y :: ys => if x ≤ y then x :: y :: ys else y :: insertSorted x ys

/-- `np.sort`: the ascending rearrangement of the list.  (Insertion sort;
on a list of plain values the ascending rearrangement is unique, so this
agrees with any sorting algorithm.) -/
def sortAngles : List ℚ → List ℚ
  | [] => []
  | x :: xs => insertSorted x (sortAngles xs)

/-- `np.diff`: consecutive differences of a list (length `n-1`).  Note
that no wraparound difference is appended. -/
def diffs : List ℚ → List ℚ
  | a :: b :: rest => (b - a) :: diffs (b :: rest)
  | _ => []

/-- Worker for `argmax`: `bi`/`bv` are the index and value of the best
element so far, `i` the index of the head of the remaining list. -/
def argmaxAux : Nat → ℚ → Nat → List ℚ → Nat
  | bi, _, _, [] => bi
  | bi, bv, i, x :: xs =>
    if bv < x then argmaxAux i x (i + 1) xs else argmaxAux bi bv (i + 1) xs

/-- `np.argmax`: the index of the first occurrence of the maximum. -/
def argmax : List ℚ → Nat
  | [] => 0
  | x :: xs => argmaxAux 0 x 1 xs

/-- Lines 146-151 of `plot_cross_section`: for two or more angles,
normalize, sort ascending, take consecutive differences, and return
`(gap_start, gap_end, max_gap)` at the argmax of the differences. -/
def largestGap (angles : List ℚ) : Option (ℚ × ℚ × ℚ) :=
  let sorted := sortAngles (normalizeAngles angles)
  if 1 < sorted.length then
    let gaps := diffs sorted
    let i := argmax gaps
    some (sorted.getD i 0, sorted.getD (i + 1) 0, gaps.getD i 0)
  else none

/-- Line 153: the gap triple is reported as an OPENING only when the
largest gap exceeds 30 degrees. -/
def reportOpening (angles : List ℚ) : Option (ℚ × ℚ × ℚ) :=
  match largestGap angles with
  | none => none
  | some (s, e, g) => if 30 < g then some (s, e, g) else none

/-- The wraparound difference `360 + first_angle - last_angle` of the
sorted normalized angles, as described by the spec's words (the source
never computes it); used to compare the source's gap detection with the
spec's description. -/
def wrapDiff (angles : List ℚ) : ℚ :=
  let sorted := sortAngles (normalizeAngles angles)
  360 + sorted.getD 0 0 - sorted.getD (sorted.length - 1) 0

/-!  ASCII grid and axis overlay (`plot_cross_section` lines 115-125 and
`ascii_plot_layer` lines 72-77). -/

/-- A character grid: a list of rows. -/
abbrev Grid := List (List Char)

/-- The cells the axis loops may overwrite: blank or the reference-circle
outline, `grid[i][zero_x] in [' ', '·']`. -/
def blankish (c : Char) : Bool :=
  c = ' ' || c = '·'

/-- The vertical-axis loop: in every row, the cell in column `zx` becomes
`│` if it is blank or outline. -/
def addVert (g : Grid) (zx : Nat) : Grid :=
  g.map (fun row => if blankish (row.getD zx ' ') then row.set zx '│' else row)

/-- The horizontal-axis loop: in row `zy`, every blank or outline cell
becomes `─`. -/
def addHoriz (g : Grid) (zy : Nat) : Grid :=
  g.set zy ((g.getD zy []).map (fun c => if blankish c then '─' else c))

/-- Overwrite a single cell of the grid. -/
def setCell (g : Grid) (i j : Nat) (c : Char) : Grid :=
  g.set i ((g.getD i []).set j c)

/-- The axis overlay of `plot_cross_section`: vertical loop, horizontal
loop, then `grid[zero_y][zero_x] = '┼'` with no blank-cell guard. -/
def addAxes (g : Grid) (zx zy : Nat) : Grid :=
  setCell (addHoriz (addVert g zx) zy) zy zx '┼'

/-!  Point-to-cell mapping of both rasterizers (`plot_cross_section`
lines 103-113, `ascii_plot_layer` lines 62-70). -/

/-- Python's `int(...)` on a rational value: truncation toward zero. -/
def pyInt (q : ℚ) : ℤ :=
  if q < 0 then -⌊-q⌋ else ⌊q⌋

/-- `grid_x = int((x - min_x) / (max_x - min_x) * (width - 1))`, the
horizontal cell index used by both rasterizers. -/
def gridX (x minX maxX : ℚ) (width : Nat) : ℤ :=
  pyInt ((x - minX) / (maxX - minX) * ((width : ℚ) - 1))

/-- `grid_y = int((max_y - y) / (max_y - min_y) * (height - 1))`, the
vertical cell index of `plot_cross_section`. -/
def gridYDet (y minY maxY : ℚ) (height : Nat) : ℤ :=
  pyInt ((maxY - y) / (maxY - minY) * ((height : ℚ) - 1))

/-- `grid_y = height - 1 - int((y - min_y) / (max_y - min_y) * (height - 1))`,
the vertical cell index of `ascii_plot_layer` (flip after truncation). -/
def gridYCli (y minY maxY : ℚ) (height : Nat) : ℤ :=
  (height : ℤ) - 1 - pyInt ((y - minY) / (maxY - minY) * ((height : ℚ) - 1))

/-- The guard `0 <= grid_x < width and 0 <= grid_y < height` deciding
whether a point is plotted at all. -/
def inGrid (gx gy : ℤ) (width height : Nat) : Bool :=
  decide (0 ≤ gx ∧ gx < (width : ℤ) ∧ 0 ≤ gy ∧ gy < (height : ℤ))

/-!  Auto-computed bounds of `ascii_plot_layer` (lines 46-57). -/

/-- Python `min` of a list (the empty case is never used by the source,
which returns early on an empty layer). -/
def listMin : List ℚ → ℚ
  | [] => 0
  | x :: xs => xs.foldl min x

/-- Python `max` of a list. -/
def listMax : List ℚ → ℚ
  | [] => 0
  | x :: xs => xs.foldl max x

/-- The bounds `ascii_plot_layer` computes for a layer: min/max of each
axis, then `margin = 1` subtracted/added on each side.  Returned as
`(min_x, max_x, min_y, max_y)`. -/
def autoBounds (ps : List (ℚ × ℚ)) : ℚ × ℚ × ℚ × ℚ :=
  let xs := ps.map Prod.fst
  let ys := ps.map Prod.snd
  (listMin xs - 1, listMax xs + 1, listMin ys - 1, listMax ys + 1)

/-- The bounds the spec describes, phrased from the spec's words for
comparison with `autoBounds` (the source's computation): pad both axes by
10% of the larger axis span. -/
def autoBoundsSpec (ps : List (ℚ × ℚ)) : ℚ × ℚ × ℚ × ℚ :=
  let xs := ps.map Prod.fst
  let ys := ps.map Prod.snd
  let pad := max (listMax xs - listMin xs) (listMax ys - listMin ys) / 10
  (listMin xs - pad, listMax xs + pad, listMin ys - pad, listMax ys + pad)

/-!  Layer buckets (`positions_by_layer` of `parse_gcode`): the
`defaultdict` keyed by `round(z, 1)` is recovered from the entry list by
filtering on the key. -/

/-- The bucket of layer key `k`: the `(x, y)` pairs of all entries whose
key is `k`, in parse order. -/
def layerOf (es : List (ℚ × ℚ × ℚ)) (k : ℚ) : List (ℚ × ℚ) :=
  (es.filter (fun e => decide (e.1 = k))).map (fun e => e.2)

/-!  Geometry validator (`check_geometry_issues` lines 55-69). -/

/-- `expected_radius = 6.0  # 12mm diameter`. -/
def expectedRadius : ℚ := 6

/-- `radii > expected_radius + 0.5` for one position `(x, y, z)`: the
source compares `sqrt(x**2 + y**2) > 6.5`; over non-negative values this
is equivalent to the squared comparison used here (`Real.sqrt` is not
computable), and the equivalence with the `sqrt` form is proved in the
claim theorem. -/
def outsideCylinder (p : ℚ × ℚ × ℚ) : Bool :=
  decide ((expectedRadius + 1/2) ^ 2 < p.1 ^ 2 + p.2.1 ^ 2)

/-- `np.sum(outside_cylinder)`: the number of flagged points. -/
def outlierCount (ps : List (ℚ × ℚ × ℚ)) : Nat :=
  (ps.filter outsideCylinder).length

/-- `np.where(outside_cylinder)[0][:5]` then indexing: the first (up to)
five flagged positions, in order. -/
def sampleOutliers (ps : List (ℚ × ℚ × ℚ)) : List (ℚ × ℚ × ℚ) :=
  (ps.filter outsideCylinder).take 5

example : pyFloat ['1', '.', '5'] = some (3/2) := by with_unfolding_all decide
example : pyFloat ['1', '.', '2', '.', '3'] = none := by with_unfolding_all decide
example : pyFloat ['-'] = none := by with_unfolding_all decide
example : pyFloat ['-', '.', '5'] = some (-(1/2)) := by with_unfolding_all decide
example : searchCoord 'X' ['G', '1', ' ', 'X', 'A', ' ', 'X', '5'] = some ['5'] := by decide
example :
    parse_gcode_detailed [['G', '1', ' ', 'X', '1', ' ', 'E', '2']] =
      Except.ok [(1, 0, 0)] := by with_unfolding_all rfl
example :
    parse_gcode_detailed [['G', '1', ' ', 'X', '1', '.', '2', '.', '3']] =
      Except.error () := by with_unfolding_all rfl
example :
    parse_gcode [['G', '1', ' ', 'X', '1']] = Except.ok [(0, 1, 0)] := by
  with_unfolding_all rfl

/-!  Helper lemmas. -/

lemma getD_set_general {α : Type} (l : List α) (k i : Nat) (a d : α) :
    (l.set k a).getD i d = if k = i ∧ k < l.length then a else l.getD i d := by
  rw [List.getD_eq_getElem?_getD, List.getD_eq_getElem?_getD, List.getElem?_set]
  by_cases hk : k = i
  · subst hk
    by_cases hl : k < l.length
    · simp [hl]
    · have hn : l.length ≤ k := by omega
      simp [hl, List.getElem?_eq_none hn]
  · simp [hk]

lemma getD_map_char (row : List Char) (f : Char → Char) (j : Nat)
    (hj : j < row.length) :
    (row.map f).getD j ' ' = f (row.getD j ' ') := by
  rw [List.getD_eq_getElem?_getD, List.getD_eq_getElem?_getD, List.getElem?_map]
  rw [List.getElem?_eq_getElem hj]
  simp

lemma getD_orElse (o₁ o₂ : Option ℚ) (d : ℚ) :
    (o₁.orElse (fun _ => o₂)).getD d = o₁.getD (o₂.getD d) := by
  cases o₁ <;> simp [Option.orElse]

lemma foldl_min_spec (l : List ℚ) : ∀ acc : ℚ,
    l.foldl min acc ≤ acc ∧ ∀ x ∈ l, l.foldl min acc ≤ x := by
  induction l with
  | nil => intro acc; simp
  | cons y ys ih =>
    intro acc
    have h := ih (min acc y)
    refine ⟨le_trans h.1 (min_le_left _ _), ?_⟩
    intro x hx
    rcases List.mem_cons.mp hx with rfl | h1
    · exact le_trans h.1 (min_le_right _ _)
    · exact h.2 x h1

lemma foldl_max_spec (l : List ℚ) : ∀ acc : ℚ,
    acc ≤ l.foldl max acc ∧ ∀ x ∈ l, x ≤ l.foldl max acc := by
  induction l with
  | nil => intro acc; simp
  | cons y ys ih =>
    intro acc
    have h := ih (max acc y)
    refine ⟨le_trans (le_max_left _ _) h.1, ?_⟩
    intro x hx
    rcases List.mem_cons.mp hx with rfl | h1
    · exact le_trans (le_max_right _ _) h.1
    · exact h.2 x h1

lemma listMin_le {l : List ℚ} {x : ℚ} (h : x ∈ l) : listMin l ≤ x := by
  cases l with
  | nil => cases h
  | cons y ys =>
    rcases List.mem_cons.mp h with h1 | h1
    · exact h1 ▸ (foldl_min_spec ys y).1
    · exact (foldl_min_spec ys y).2 x h1

lemma le_listMax {l : List ℚ} {x : ℚ} (h : x ∈ l) : x ≤ listMax l := by
  cases l with
  | nil => cases h
  | cons y ys =>
    rcases List.mem_cons.mp h with h1 | h1
    · exact h1 ▸ (foldl_max_spec ys y).1
    · exact (foldl_max_spec ys y).2 x h1

lemma getD_cons_succ {α : Type} (x : α) (xs : List α) (j : Nat) (d : α) :
    (x :: xs).getD (j + 1) d = xs.getD j d := rfl

lemma argmaxAux_spec : ∀ (xs : List ℚ) (bi i : Nat) (bv : ℚ),
    (argmaxAux bi bv i xs = bi ∧ ∀ x ∈ xs, x ≤ bv) ∨
    (∃ j, j < xs.length ∧ argmaxAux bi bv i xs = i + j ∧
      bv ≤ xs.getD j 0 ∧ ∀ x ∈ xs, x ≤ xs.getD j 0) := by
  intro xs
  induction xs with
  | nil => intro bi i bv; exact Or.inl ⟨rfl, by simp⟩
  | cons x xs ih =>
    intro bi i bv
    by_cases hbv : bv < x
    · have hstep : argmaxAux bi bv i (x :: xs) = argmaxAux i x (i + 1) xs := by
        simp [argmaxAux, hbv]
      rcases ih i (i + 1) x with ⟨heq, hall⟩ | ⟨j, hj, heq, hle, hall⟩
      · refine Or.inr ⟨0, by simp, by rw [hstep, heq]; omega, le_of_lt hbv, ?_⟩
        intro y hy
        rcases List.mem_cons.mp hy with h1 | h1
        · exact le_of_eq h1
        · exact hall y h1
      · refine Or.inr ⟨j + 1, by simp only [List.length_cons]; omega,
          by rw [hstep, heq]; omega, ?_, ?_⟩
        · rw [getD_cons_succ]
          exact le_trans (le_of_lt hbv) hle
        · intro y hy
          rw [getD_cons_succ]
          rcases List.mem_cons.mp hy with h1 | h1
          · exact h1 ▸ hle
          · exact hall y h1
    · have hstep : argmaxAux bi bv i (x :: xs) = argmaxAux bi bv (i + 1) xs := by
        simp [argmaxAux, hbv]
      have hxbv : x ≤ bv := le_of_not_lt hbv
      rcases ih bi (i + 1) bv with ⟨heq, hall⟩ | ⟨j, hj, heq, hle, hall⟩
      · refine Or.inl ⟨by rw [hstep, heq], ?_⟩
        intro y hy
        rcases List.mem_cons.mp hy with h1 | h1
        · exact h1 ▸ hxbv
        · exact hall y h1
      · refine Or.inr ⟨j + 1, by simp only [List.length_cons]; omega,
          by rw [hstep, heq]; omega, ?_, ?_⟩
        · rw [getD_cons_succ]
          exact hle
        · intro y hy
          rw [getD_cons_succ]
          rcases List.mem_cons.mp hy with h1 | h1
          · exact h1 ▸ le_trans hxbv hle
          · exact hall y h1

lemma argmax_spec (l : List ℚ) (h : l ≠ []) :
    argmax l < l.length ∧ ∀ x ∈ l, x ≤ l.getD (argmax l) 0 := by
  cases l with
  | nil => exact absurd rfl h
  | cons x xs =>
    have hdef : argmax (x :: xs) = argmaxAux 0 x 1 xs := rfl
    rcases argmaxAux_spec xs 0 1 x with ⟨heq, hall⟩ | ⟨j, hj, heq, hle, hall⟩
    · constructor
      · rw [hdef, heq]; simp
      · intro y hy
        rw [hdef, heq]
        rcases List.mem_cons.mp hy with h1 | h1
        · exact le_of_eq h1
        · exact hall y h1
    · have hidx : argmax (x :: xs) = j + 1 := by rw [hdef, heq]; omega
      constructor
      · rw [hidx]; simp only [List.length_cons]; omega
      · intro y hy
        rw [hidx, getD_cons_succ]
        rcases List.mem_cons.mp hy with h1 | h1
        · exact h1 ▸ hle
        · exact hall y h1

lemma diffs_length : ∀ l : List ℚ, (diffs l).length = l.length - 1 := by
  intro l
  match l with
  | [] => rfl
  | [a] => rfl
  | a :: b :: rest =>
    have ih := diffs_length (b :: rest)
    simp only [diffs, List.length_cons] at *
    omega

lemma insertSorted_length (x : ℚ) (l : List ℚ) :
    (insertSorted x l).length = l.length + 1 := by
  induction l with
  | nil => rfl
  | cons y ys ih =>
    by_cases h : x ≤ y <;> simp [insertSorted, h, ih]

lemma sortAngles_length (l : List ℚ) : (sortAngles l).length = l.length := by
  induction l with
  | nil => rfl
  | cons x xs ih => simp [sortAngles, insertSorted_length, ih]

lemma isPosLine_nil : isPosLine ([] : Line) = false := rfl

lemma isDepLine_nil : isDepLine ([] : Line) = false := rfl

lemma isG1Line_nil : isG1Line ([] : Line) = false := rfl

lemma isPosLine_of_isDepLine {l : Line} (h : isDepLine l = true) :
    isPosLine l = true := by
  simp only [isDepLine, Bool.and_eq_true] at h
  simp only [isPosLine, Bool.or_eq_true]
  exact Or.inr h.1

lemma isPosLine_of_isG1Line {l : Line} (h : isG1Line l = true) :
    isPosLine l = true := by
  simp only [isG1Line] at h
  simp only [isPosLine, Bool.or_eq_true]
  exact Or.inr h

lemma stepDetailed_ok {s s' : DetState} {raw : Line}
    (h : stepDetailed s raw = Except.ok s') :
    s'.pos = ⟨(lineOrd 'X' raw).getD s.pos.x, (lineOrd 'Y' raw).getD s.pos.y,
        (lineOrd 'Z' raw).getD s.pos.z⟩ ∧
      s'.positions = s.positions ++
        (if isDepLine (preprocess raw) = true then
          [(s'.pos.x, s'.pos.y, s'.pos.z)] else []) := by
  simp only [stepDetailed] at h
  split at h
  next he =>
    have hnil : preprocess raw = [] := by simpa [List.isEmpty_iff] using he
    injection h with h'
    subst h'
    rw [hnil]
    simp [lineOrd, hnil, isPosLine_nil, isDepLine_nil]
  next he =>
    split at h
    next e heq => exact absurd h (by simp)
    next p heq =>
      have hpos : s'.pos = p := by
        split at h <;> (injection h with h'; subst h'; rfl)
      have hordX : lineOrd 'X' raw = (if isPosLine (preprocess raw) then
          (match getOrd 'X' (preprocess raw) with
           | Except.ok o => o
           | Except.error _ => none) else none) := rfl
      by_cases hp : isPosLine (preprocess raw) = true
      · rw [if_pos hp] at heq
        have hupd := heq
        simp only [updState] at hupd
        split at hupd
        next ox oy oz hx hy hz =>
          injection hupd with h'
          constructor
          · rw [hpos, ← h']
            simp [lineOrd, hp, hx, hy, hz]
          · split at h <;> (injection h with h''; subst h''; simp_all)
        next hfail =>
          exact absurd hupd (by simp)
      · rw [if_neg hp] at heq
        injection heq with h'
        have hdep : isDepLine (preprocess raw) = false := by
          cases hd : isDepLine (preprocess raw)
          · rfl
          · exact absurd (isPosLine_of_isDepLine hd) (by simpa using hp)
        constructor
        · rw [hpos, ← h']
          simp [lineOrd, hp]
        · rw [hdep]
          split at h <;> (injection h with h''; subst h''; simp_all)

lemma stepCli_ok {s s' : CliState} {raw : Line}
    (h : stepCli s raw = Except.ok s') :
    s'.pos = ⟨(lineOrd 'X' raw).getD s.pos.x, (lineOrd 'Y' raw).getD s.pos.y,
        (lineOrd 'Z' raw).getD s.pos.z⟩ ∧
      s'.entries = s.entries ++
        (if isG1Line (preprocess raw) = true then
          [(round1 s'.pos.z, s'.pos.x, s'.pos.y)] else []) := by
  simp only [stepCli] at h
  split at h
  next he =>
    have hnil : preprocess raw = [] := by simpa [List.isEmpty_iff] using he
    injection h with h'
    subst h'
    rw [hnil]
    simp [lineOrd, hnil, isPosLine_nil, isG1Line_nil]
  next he =>
    split at h
    next hp =>
      split at h
      next e heq => exact absurd h (by simp)
      next p heq =>
        have hpos : s'.pos = p := by
          split at h <;> (injection h with h'; subst h'; rfl)
        simp only [updState] at heq
        split at heq
        next ox oy oz hx hy hz =>
          injection heq with h'
          constructor
          · rw [hpos, ← h']
            simp [lineOrd, hp, hx, hy, hz]
          · split at h <;> (injection h with h''; subst h''; simp_all)
        next hfail =>
          exact absurd heq (by simp)
    next hp =>
      injection h with h'
      subst h'
      have hg1 : isG1Line (preprocess raw) = false := by
        cases hd : isG1Line (preprocess raw)
        · rfl
        · exact absurd (isPosLine_of_isG1Line hd) (by simpa using hp)
      rw [hg1]
      simp [lineOrd, Bool.of_not_eq_true hp]

lemma runDet_pos : ∀ (ls : List Line) (s s' : DetState),
    runDet s ls = Except.ok s' →
    s'.pos = ⟨(mostRecentOrd 'X' ls).getD s.pos.x,
      (mostRecentOrd 'Y' ls).getD s.pos.y,
      (mostRecentOrd 'Z' ls).getD s.pos.z⟩ := by
  intro ls
  induction ls with
  | nil =>
    intro s s' h
    injection h with h'
    subst h'
    simp [mostRecentOrd]
  | cons l ls ih =>
    intro s s' h
    simp only [runDet] at h
    split at h
    next e heq => exact absurd h (by simp)
    next s₁ heq =>
      have h1 := (stepDetailed_ok heq).1
      have h2 := ih s₁ s' h
      rw [h2, h1]
      show _ = MotionState.mk ((mostRecentOrd 'X' (l :: ls)).getD s.pos.x) _ _
      simp only [mostRecentOrd, getD_orElse]

lemma runDet_length : ∀ (ls : List Line) (s s' : DetState),
    runDet s ls = Except.ok s' →
    s'.positions.length = s.positions.length + depLineCount ls := by
  intro ls
  induction ls with
  | nil =>
    intro s s' h
    injection h with h'
    subst h'
    simp [depLineCount]
  | cons l ls ih =>
    intro s s' h
    simp only [runDet] at h
    split at h
    next e heq => exact absurd h (by simp)
    next s₁ heq =>
      have h1 := (stepDetailed_ok heq).2
      have h2 := ih s₁ s' h
      by_cases hd : isDepLine (preprocess l) = true
      · rw [if_pos hd] at h1
        have h3 : depLineCount (l :: ls) = 1 + depLineCount ls := by
          simp [depLineCount, List.filter_cons, hd]
          omega
        have h4 : s₁.positions.length = s.positions.length + 1 := by
          rw [h1]; simp
        omega
      · rw [if_neg hd] at h1
        have h3 : depLineCount (l :: ls) = depLineCount ls := by
          simp [depLineCount, List.filter_cons, hd]
        have h4 : s₁.positions.length = s.positions.length := by
          rw [h1]; simp
        omega

lemma runDet_append : ∀ (ls ms : List Line) (s : DetState),
    runDet s (ls ++ ms) =
      match runDet s ls with
      | Except.error e => Except.error e
      | Except.ok s₁ => runDet s₁ ms := by
  intro ls
  induction ls with
  | nil => intro ms s; rfl
  | cons l ls ih =>
    intro ms s
    have hl : ∀ ms' : List Line, runDet s (l :: ms') =
        match stepDetailed s l with
        | Except.error e => Except.error e
        | Except.ok s₁ => runDet s₁ ms' := fun _ => rfl
    rw [List.cons_append, hl (ls ++ ms), hl ls]
    cases stepDetailed s l with
    | error e => rfl
    | ok s₁ => exact ih ms s₁

lemma runCli_length : ∀ (ls : List Line) (s s' : CliState),
    runCli s ls = Except.ok s' →
    s'.entries.length = s.entries.length + g1LineCount ls := by
  intro ls
  induction ls with
  | nil =>
    intro s s' h
    injection h with h'
    subst h'
    simp [g1LineCount]
  | cons l ls ih =>
    intro s s' h
    simp only [runCli] at h
    split at h
    next e heq => exact absurd h (by simp)
    next s₁ heq =>
      have h1 := (stepCli_ok heq).2
      have h2 := ih s₁ s' h
      by_cases hd : isG1Line (preprocess l) = true
      · rw [if_pos hd] at h1
        have h3 : g1LineCount (l :: ls) = 1 + g1LineCount ls := by
          simp [g1LineCount, List.filter_cons, hd]
          omega
        have h4 : s₁.entries.length = s.entries.length + 1 := by
          rw [h1]; simp
        omega
      · rw [if_neg hd] at h1
        have h3 : g1LineCount (l :: ls) = g1LineCount ls := by
          simp [g1LineCount, List.filter_cons, hd]
        have h4 : s₁.entries.length = s.entries.length := by
          rw [h1]; simp
        omega

/-!  Claim theorems. -/

/-- C2 (counterexample): the CLI parser `parse_gcode` records a position
for the line `G1 X1` even though no line carries the deposition marker
`E`, so the output count does not equal the count of deposition-marked
lines, refuting the claim as stated. -/
theorem c2_counterexample :
    Except.map List.length (parse_gcode [['G', '1', ' ', 'X', '1']]) =
        Except.ok 1 ∧
      depLineCount [['G', '1', ' ', 'X', '1']] = 0 := by
  constructor
  · with_unfolding_all rfl
  · with_unfolding_all rfl

/-- C2 (amended): `parse_gcode_detailed` outputs exactly one Position per
line that (after preprocessing) starts with `G1` and contains `E`, while
`parse_gcode` outputs one entry per line that starts with `G1`, with or
without the deposition marker. -/
theorem c2_amended :
    (∀ (ls : List Line) (out : List (ℚ × ℚ × ℚ)),
      parse_gcode_detailed ls = Except.ok out → out.length = depLineCount ls) ∧
    (∀ (ls : List Line) (out : List (ℚ × ℚ × ℚ)),
      parse_gcode ls = Except.ok out → out.length = g1LineCount ls) := by
  constructor
  · intro ls out h
    cases hr : runDet initDet ls with
    | error e =>
      rw [parse_gcode_detailed, hr] at h
      exact absurd h (by simp [Except.map])
    | ok s' =>
      rw [parse_gcode_detailed, hr] at h
      have hout : s'.positions = out := by simpa [Except.map] using h
      have hlen := runDet_length ls initDet s' hr
      rw [hout] at hlen
      simpa [initDet] using hlen
  · intro ls out h
    cases hr : runCli initCli ls with
    | error e =>
      rw [parse_gcode, hr] at h
      exact absurd h (by simp [Except.map])
    | ok s' =>
      rw [parse_gcode, hr] at h
      have hout : s'.entries = out := by simpa [Except.map] using h
      have hlen := runCli_length ls initCli s' hr
      rw [hout] at hlen
      simpa [initCli] using hlen

/-- C2 (witness): the amended count law evaluated on a concrete stream
with one deposition line. -/
theorem c2_witness :
    parse_gcode_detailed [['G', '1', ' ', 'X', '1', ' ', 'E', '2']] =
        Except.ok [(1, 0, 0)] ∧
      ([((1 : ℚ), (0 : ℚ), (0 : ℚ))]).length =
        depLineCount [['G', '1', ' ', 'X', '1', ' ', 'E', '2']] :=
  ⟨by with_unfolding_all rfl,
   c2_amended.1 [['G', '1', ' ', 'X', '1', ' ', 'E', '2']] [(1, 0, 0)]
     (by with_unfolding_all rfl)⟩

/-- C3: sticky coordinates.  When a deposition line `l` is appended to a
stream `ls` and the parse succeeds, the Position captured for `l` carries,
for each ordinate, the most recently set value over the whole stream
(lines updating an ordinate overwrite it; absent ordinates keep the last
earlier value, or the initial 0 if never set). -/
theorem c3_sticky_coordinates (ls : List Line) (l : Line) (s' s'' : DetState)
    (hpre : runDet initDet ls = Except.ok s')
    (hall : runDet initDet (ls ++ [l]) = Except.ok s'')
    (hdep : isDepLine (preprocess l) = true) :
    s''.pos = ⟨(mostRecentOrd 'X' (ls ++ [l])).getD 0,
        (mostRecentOrd 'Y' (ls ++ [l])).getD 0,
        (mostRecentOrd 'Z' (ls ++ [l])).getD 0⟩ ∧
      s''.positions = s'.positions ++
        [((mostRecentOrd 'X' (ls ++ [l])).getD 0,
          (mostRecentOrd 'Y' (ls ++ [l])).getD 0,
          (mostRecentOrd 'Z' (ls ++ [l])).getD 0)] := by
  have hpos := runDet_pos (ls ++ [l]) initDet s'' hall
  have happ := runDet_append ls [l] initDet
  rw [hpre] at happ
  rw [happ] at hall
  have hstep : stepDetailed s' l = Except.ok s'' := by
    revert hall
    show (match stepDetailed s' l with
      | Except.error e => Except.error e
      | Except.ok s₁ => runDet s₁ []) = Except.ok s'' → _
    cases stepDetailed s' l with
    | error e => intro hc; exact absurd hc (by simp)
    | ok s₁ =>
      intro hc
      injection hc with h'
      rw [h']
  have hp := (stepDetailed_ok hstep).2
  rw [if_pos hdep] at hp
  constructor
  · rw [hpos]
    simp [initDet, initPos]
  · rw [hp, hpos]
    simp [initDet, initPos]

/-- C3 (witness): the sticky law evaluated on the stream
`G1 X1` then `G1 Y2 E0.5`: the captured Position is `(1, 2, 0)` — `X`
from the earlier line, `Y` from the capturing line, `Z` never set. -/
theorem c3_witness :
    runDet initDet [['G', '1', ' ', 'X', '1']] =
        Except.ok ⟨⟨1, 0, 0⟩, []⟩ ∧
      runDet initDet [['G', '1', ' ', 'X', '1'],
          ['G', '1', ' ', 'Y', '2', ' ', 'E', '0', '.', '5']] =
        Except.ok ⟨⟨1, 2, 0⟩, [(1, 2, 0)]⟩ ∧
      isDepLine (preprocess ['G', '1', ' ', 'Y', '2', ' ', 'E', '0', '.', '5']) =
        true ∧
      ((DetState.mk ⟨1, 2, 0⟩ [(1, 2, 0)]).pos =
          ⟨(mostRecentOrd 'X' ([['G', '1', ' ', 'X', '1']] ++
              [['G', '1', ' ', 'Y', '2', ' ', 'E', '0', '.', '5']])).getD 0,
            (mostRecentOrd 'Y' ([['G', '1', ' ', 'X', '1']] ++
              [['G', '1', ' ', 'Y', '2', ' ', 'E', '0', '.', '5']])).getD 0,
            (mostRecentOrd 'Z' ([['G', '1', ' ', 'X', '1']] ++
              [['G', '1', ' ', 'Y', '2', ' ', 'E', '0', '.', '5']])).getD 0⟩ ∧
        (DetState.mk ⟨1, 2, 0⟩ [(1, 2, 0)]).positions =
          (DetState.mk ⟨1, 0, 0⟩ []).positions ++
            [((mostRecentOrd 'X' ([['G', '1', ' ', 'X', '1']] ++
                [['G', '1', ' ', 'Y', '2', ' ', 'E', '0', '.', '5']])).getD 0,
              (mostRecentOrd 'Y' ([['G', '1', ' ', 'X', '1']] ++
                [['G', '1', ' ', 'Y', '2', ' ', 'E', '0', '.', '5']])).getD 0,
              (mostRecentOrd 'Z' ([['G', '1', ' ', 'X', '1']] ++
                [['G', '1', ' ', 'Y', '2', ' ', 'E', '0', '.', '5']])).getD 0)]) :=
  ⟨by with_unfolding_all rfl, by with_unfolding_all rfl, by decide,
   c3_sticky_coordinates [['G', '1', ' ', 'X', '1']]
     ['G', '1', ' ', 'Y', '2', ' ', 'E', '0', '.', '5']
     ⟨⟨1, 0, 0⟩, []⟩ ⟨⟨1, 2, 0⟩, [(1, 2, 0)]⟩
     (by with_unfolding_all rfl) (by with_unfolding_all rfl) (by decide)⟩

/-- C4: evaluation at the failing input.  The line `G1 X1.2.3 Y5` carries
the malformed numeric token `1.2.3` inside a recognized `X` field; both
parsers abort the whole parse (Python raises `ValueError` from `float`),
instead of treating the ordinate as absent as the spec's lenient-parsing
policy requires. -/
theorem c4_malformed_crash :
    parse_gcode_detailed
        [['G', '1', ' ', 'X', '1', '.', '2', '.', '3', ' ', 'Y', '5'],
         ['G', '1', ' ', 'Y', '7', ' ', 'E', '1']] =
        Except.error () ∧
      parse_gcode
        [['G', '1', ' ', 'X', '1', '.', '2', '.', '3', ' ', 'Y', '5'],
         ['G', '1', ' ', 'Y', '7', ' ', 'E', '1']] =
        Except.error () := by
  constructor
  · with_unfolding_all rfl
  · with_unfolding_all rfl

/-- C5 (counterexample): the line `G10 X5 E1` has opcode `G10`, which is
neither `G0` nor `G1`, yet because matching is by string prefix
(`startswith`) it updates the motion state to `X=5` and even records a
Position, refuting the claim that such lines are ignored. -/
theorem c5_counterexample :
    opcodeOf (preprocess ['G', '1', '0', ' ', 'X', '5', ' ', 'E', '1']) ≠ opG0 ∧
      opcodeOf (preprocess ['G', '1', '0', ' ', 'X', '5', ' ', 'E', '1']) ≠ opG1 ∧
      parse_gcode_detailed [['G', '1', '0', ' ', 'X', '5', ' ', 'E', '1']] =
        Except.ok [(5, 0, 0)] := by
  refine ⟨by decide, by decide, ?_⟩
  with_unfolding_all rfl

/-- C5 (amended): matching is by string prefix, so any line beginning
with the characters `G0` or `G1` (including opcodes such as `G10`)
updates the state; a line that starts with neither prefix is ignored
without error by both parsers, changing neither the motion state nor the
output. -/
theorem c5_amended (s : DetState) (t : CliState) (raw : Line)
    (h : isPosLine (preprocess raw) = false) :
    stepDetailed s raw = Except.ok s ∧ stepCli t raw = Except.ok t := by
  have hdep : isDepLine (preprocess raw) = false := by
    cases hd : isDepLine (preprocess raw)
    · rfl
    · rw [isPosLine_of_isDepLine hd] at h; cases h
  constructor
  · by_cases he : (preprocess raw).isEmpty = true
    · simp [stepDetailed, he]
    · simp [stepDetailed, he, h, hdep]
  · by_cases he : (preprocess raw).isEmpty = true
    · simp [stepCli, he]
    · simp [stepCli, he, h]

/-- C5 (witness): the ignore law evaluated on the non-positioning line
`M104`. -/
theorem c5_witness :
    isPosLine (preprocess ['M', '1', '0', '4']) = false ∧
      stepDetailed initDet ['M', '1', '0', '4'] = Except.ok initDet ∧
      stepCli initCli ['M', '1', '0', '4'] = Except.ok initCli :=
  ⟨by decide, (c5_amended initDet initCli ['M', '1', '0', '4'] (by decide)).1,
   (c5_amended initDet initCli ['M', '1', '0', '4'] (by decide)).2⟩

/-- C1 (counterexample): for the two angles 90° and 100° the source's gap
computation reports the 10° consecutive gap from 90° to 100° as the
largest gap; the wraparound difference `360 + first − last = 350°` is
never computed or compared (it is larger than every consecutive gap), so
the claim that the wraparound difference is included is false. -/
theorem c1_counterexample :
    largestGap [90, 100] = some (90, 100, 10) ∧
      wrapDiff [90, 100] = 350 ∧ (10 : ℚ) < 350 := by
  refine ⟨?_, ?_, ?_⟩ <;> with_unfolding_all decide

/-- C1 (amended): the gap detection normalizes angles to [0°, 360°),
sorts ascending and takes only consecutive differences — no wraparound
difference — reporting the (first) largest consecutive gap as
`(start, end, magnitude)`; on the spec's example `[0°, 90°, 100°, 350°]`
the reported gap is 250° from 100° to 350°, and exceeding the 30°
threshold it is reported as an opening. -/
theorem c1_amended_gap :
    (∀ l : List ℚ, 1 < l.length →
      ∃ s e g, largestGap l = some (s, e, g) ∧
        ∀ d ∈ diffs (sortAngles (normalizeAngles l)), d ≤ g) ∧
      largestGap [0, 90, 100, 350] = some (100, 350, 250) ∧
      reportOpening [0, 90, 100, 350] = some (100, 350, 250) := by
  refine ⟨?_, by with_unfolding_all decide, by with_unfolding_all decide⟩
  intro l hl
  have hlen : (sortAngles (normalizeAngles l)).length = l.length := by
    rw [sortAngles_length]
    simp [normalizeAngles]
  have h1 : 1 < (sortAngles (normalizeAngles l)).length := by omega
  have hg := diffs_length (sortAngles (normalizeAngles l))
  have hpos : 0 < (diffs (sortAngles (normalizeAngles l))).length := by omega
  have hne : diffs (sortAngles (normalizeAngles l)) ≠ [] :=
    List.ne_nil_of_length_pos hpos
  obtain ⟨hlt, hmax⟩ := argmax_spec _ hne
  have hgap : largestGap l = some
      ((sortAngles (normalizeAngles l)).getD
        (argmax (diffs (sortAngles (normalizeAngles l)))) 0,
       (sortAngles (normalizeAngles l)).getD
        (argmax (diffs (sortAngles (normalizeAngles l))) + 1) 0,
       (diffs (sortAngles (normalizeAngles l))).getD
        (argmax (diffs (sortAngles (normalizeAngles l)))) 0) := by
    simp only [largestGap]
    rw [if_pos h1]
  exact ⟨_, _, _, hgap, hmax⟩

/-- C1 (witness): the amended gap law evaluated on the spec's example
angle list. -/
theorem c1_witness :
    1 < ([0, 90, 100, 350] : List ℚ).length ∧
      ∃ s e g, largestGap [0, 90, 100, 350] = some (s, e, g) ∧
        ∀ d ∈ diffs (sortAngles (normalizeAngles [0, 90, 100, 350])), d ≤ g :=
  ⟨by decide, c1_amended_gap.1 [0, 90, 100, 350] (by decide)⟩

lemma length_addVert (g : Grid) (zx : Nat) : (addVert g zx).length = g.length := by
  rw [addVert, List.length_map]

lemma addVert_cell (g : Grid) (zx i j : Nat)
    (hd : blankish ((g.getD i []).getD j ' ') = false) :
    ((addVert g zx).getD i []).getD j ' ' = (g.getD i []).getD j ' ' := by
  by_cases hi : i < g.length
  · have hgr : g[i] = g.getD i [] := (List.getD_eq_getElem g [] hi).symm
    have hrow : (addVert g zx).getD i [] =
        (if blankish ((g.getD i []).getD zx ' ') then (g.getD i []).set zx '│'
         else g.getD i []) := by
      rw [addVert, List.getD_eq_getElem?_getD, List.getElem?_map,
        List.getElem?_eq_getElem hi]
      simp only [Option.map_some', Option.getD_some, hgr]
    by_cases hz : blankish ((g.getD i []).getD zx ' ') = true
    · rw [hrow, if_pos hz]
      by_cases hj : j = zx
      · subst hj
        rw [hd] at hz
        cases hz
      · rw [getD_set_general]
        rw [if_neg]
        rintro ⟨h1, -⟩
        exact hj h1.symm
    · rw [hrow, if_neg hz]
  · have hlen : g.length ≤ i := by omega
    have h1 : (addVert g zx).getD i [] = [] := by
      rw [List.getD_eq_getElem?_getD, List.getElem?_eq_none (by rw [length_addVert]; omega)]
      rfl
    have h2 : g.getD i [] = [] := by
      rw [List.getD_eq_getElem?_getD, List.getElem?_eq_none hlen]
      rfl
    rw [h1, h2]

lemma addHoriz_cell (g : Grid) (zy i j : Nat)
    (hd : blankish ((g.getD i []).getD j ' ') = false) :
    ((addHoriz g zy).getD i []).getD j ' ' = (g.getD i []).getD j ' ' := by
  rw [addHoriz, getD_set_general]
  by_cases hi : zy = i ∧ zy < g.length
  · rw [if_pos hi]
    obtain ⟨rfl, -⟩ := hi
    by_cases hj : j < (g.getD zy []).length
    · rw [getD_map_char _ _ _ hj]
      rw [if_neg (by rw [hd]; exact Bool.false_ne_true)]
    · rw [List.getD_eq_getElem?_getD,
        List.getElem?_eq_none (by rw [List.length_map]; omega)]
      rw [List.getD_eq_getElem?_getD (g.getD zy []),
        List.getElem?_eq_none (by omega)]
  · rw [if_neg hi]

lemma setCell_cell (g : Grid) (zy zx i j : Nat) (c : Char)
    (hne : ¬(i = zy ∧ j = zx)) :
    ((setCell g zy zx c).getD i []).getD j ' ' = (g.getD i []).getD j ' ' := by
  rw [setCell, getD_set_general]
  by_cases hi : zy = i ∧ zy < g.length
  · rw [if_pos hi]
    obtain ⟨rfl, -⟩ := hi
    have hj : j ≠ zx := fun hx => hne ⟨rfl, hx⟩
    rw [getD_set_general, if_neg]
    rintro ⟨h1, -⟩
    exact hj h1.symm
  · rw [if_neg hi]

/-- C6 (counterexample): a plotted data cell `█` located at the projected
origin cell is overwritten by the unconditional intersection glyph `┼`,
refuting the claim that a data cell is never overwritten by any axis
glyph. -/
theorem c6_counterexample :
    addAxes [[' ', ' ', ' '], [' ', '█', ' '], [' ', ' ', ' ']] 1 1 =
        [[' ', '│', ' '], ['─', '┼', '─'], [' ', '│', ' ']] ∧
      ((addAxes [[' ', ' ', ' '], [' ', '█', ' '], [' ', ' ', ' ']] 1 1).getD 1
          []).getD 1 ' ' = '┼' := by
  constructor <;> decide

/-- C6 (amended): the horizontal and vertical axis glyphs are drawn only
on blank or reference-outline cells, so any cell that holds other content
(in particular a plotted data point) and is not the origin cell keeps its
content; the intersection glyph `┼`, however, is written unconditionally
at the origin cell, overwriting even a data point there. -/
theorem c6_amended (g : Grid) (zx zy i j : Nat)
    (hne : ¬(i = zy ∧ j = zx))
    (hd : blankish ((g.getD i []).getD j ' ') = false) :
    ((addAxes g zx zy).getD i []).getD j ' ' = (g.getD i []).getD j ' ' := by
  have h1 := addVert_cell g zx i j hd
  have hd1 : blankish (((addVert g zx).getD i []).getD j ' ') = false := by
    rw [h1]; exact hd
  have h2 := addHoriz_cell (addVert g zx) zy i j hd1
  have hd2 : blankish (((addHoriz (addVert g zx) zy).getD i []).getD j ' ') =
      false := by
    rw [h2, h1]; exact hd
  have h3 := setCell_cell (addHoriz (addVert g zx) zy) zy zx i j '┼' hne
  rw [addAxes, h3, h2, h1]

/-- C6 (witness): the preservation law evaluated on a 1×1 grid holding a
data cell, with the origin column off the data cell. -/
theorem c6_witness :
    ¬((0 : Nat) = 0 ∧ (0 : Nat) = 1) ∧
      blankish ((([['█']] : Grid).getD 0 []).getD 0 ' ') = false ∧
      ((addAxes [['█']] 1 0).getD 0 []).getD 0 ' ' =
        (([['█']] : Grid).getD 0 []).getD 0 ' ' :=
  ⟨by decide, by decide, c6_amended [['█']] 1 0 0 0 (by decide) (by decide)⟩

lemma pyInt_nonneg {q : ℚ} (h : 0 ≤ q) : 0 ≤ pyInt q := by
  rw [pyInt, if_neg (not_lt.mpr h)]
  exact Int.floor_nonneg.mpr h

lemma pyInt_le {q : ℚ} {n : ℤ} (h : q ≤ (n : ℚ)) : pyInt q ≤ n := by
  rw [pyInt]
  split
  next hq =>
    have h1 : ((-n : ℤ) : ℚ) ≤ -q := by push_cast; linarith
    have h2 : (-n : ℤ) ≤ ⌊-q⌋ := Int.le_floor.mpr h1
    omega
  next hq =>
    have h3 := Int.floor_le_floor h
    rw [Int.floor_intCast] at h3
    exact h3

lemma ratio_bounds {v a b : ℚ} (h1 : a ≤ v) (h2 : v ≤ b) (h3 : a < b)
    {n : Nat} (hn : 1 ≤ n) :
    0 ≤ pyInt ((v - a) / (b - a) * ((n : ℚ) - 1)) ∧
      pyInt ((v - a) / (b - a) * ((n : ℚ) - 1)) ≤ (n : ℤ) - 1 := by
  have hspan : 0 < b - a := sub_pos.mpr h3
  have ht0 : 0 ≤ (v - a) / (b - a) := div_nonneg (by linarith) (le_of_lt hspan)
  have ht1 : (v - a) / (b - a) ≤ 1 := by
    rw [div_le_one hspan]; linarith
  have hw : 0 ≤ (n : ℚ) - 1 := by
    have hcast : (1 : ℚ) ≤ (n : ℚ) := by exact_mod_cast hn
    linarith
  have hv0 : 0 ≤ (v - a) / (b - a) * ((n : ℚ) - 1) := mul_nonneg ht0 hw
  have hv1 : (v - a) / (b - a) * ((n : ℚ) - 1) ≤ (n : ℚ) - 1 := by
    calc (v - a) / (b - a) * ((n : ℚ) - 1) ≤ 1 * ((n : ℚ) - 1) :=
          mul_le_mul_of_nonneg_right ht1 hw
      _ = (n : ℚ) - 1 := one_mul _
  refine ⟨pyInt_nonneg hv0, pyInt_le ?_⟩
  push_cast
  linarith

/-- C7 (counterexample): at `x = 3` in the window `[0, 8]` with width 5
the intermediate value is 1.5; the source's `int()` truncation places the
point in column 1, while the claim's `round` formula gives column 2. -/
theorem c7_counterexample :
    gridX 3 0 8 5 = 1 ∧
      roundHalfEven ((3 - 0) / (8 - 0) * ((5 : ℚ) - 1)) = 2 ∧
      (1 : ℤ) ≠ 2 := by
  refine ⟨?_, ?_, by decide⟩ <;> with_unfolding_all decide

/-- C7 (amended): the cell mapping truncates with `int()` (toward zero)
rather than rounding; for every point inside the window both rasterizers
produce indices in `[0, width) × [0, height)`; a point can lie slightly
outside the window and still land in the grid because truncation toward
zero maps intermediate ratios in `(-1, 0)` to column 0 (e.g. `x = -1`
with window `[0, 8]` and width 5), so dropping points outside the window
is only guaranteed by the explicit bounds guard, not for all of them. -/
theorem c7_amended :
    (∀ (x e f : ℚ) (w : Nat), e ≤ x → x ≤ f → e < f → 1 ≤ w →
      0 ≤ gridX x e f w ∧ gridX x e f w < (w : ℤ)) ∧
    (∀ (y e f : ℚ) (m : Nat), e ≤ y → y ≤ f → e < f → 1 ≤ m →
      0 ≤ gridYDet y e f m ∧ gridYDet y e f m < (m : ℤ)) ∧
    (∀ (y e f : ℚ) (m : Nat), e ≤ y → y ≤ f → e < f → 1 ≤ m →
      0 ≤ gridYCli y e f m ∧ gridYCli y e f m < (m : ℤ)) ∧
    gridX (-1) 0 8 5 = 0 ∧ inGrid (gridX (-1) 0 8 5) 0 5 1 = true := by
  refine ⟨?_, ?_, ?_, by with_unfolding_all decide, by with_unfolding_all decide⟩
  · intro x e f w h1 h2 h3 hw
    have hb := ratio_bounds h1 h2 h3 hw
    rw [gridX]
    exact ⟨hb.1, by omega⟩
  · intro y e f m h1 h2 h3 hm
    have hb := ratio_bounds (show e ≤ f - y + e by linarith)
      (show f - y + e ≤ f by linarith) h3 hm
    have heq : f - y + e - e = f - y := by ring
    rw [heq] at hb
    rw [gridYDet]
    exact ⟨hb.1, by omega⟩
  · intro y e f m h1 h2 h3 hm
    have hb := ratio_bounds h1 h2 h3 hm
    rw [gridYCli]
    constructor
    · have := hb.2; omega
    · have := hb.1; omega

/-- C7 (witness): the in-range law evaluated at `x = 3`, window `[0, 8]`,
width 5. -/
theorem c7_witness :
    ((0 : ℚ) ≤ 3 ∧ (3 : ℚ) ≤ 8 ∧ (0 : ℚ) < 8 ∧ (1 : Nat) ≤ 5) ∧
      0 ≤ gridX 3 0 8 5 ∧ gridX 3 0 8 5 < (5 : ℤ) :=
  ⟨⟨by norm_num, by norm_num, by norm_num, by norm_num⟩,
   c7_amended.1 3 0 8 5 (by norm_num) (by norm_num) (by norm_num) (by norm_num)⟩

/-- C8 (counterexample): for the two points `(0,0)` and `(40,0)` the
source pads each side by the fixed margin 1, giving the window
`(-1, 41, -1, 1)`; padding by 10% of the larger axis span (40) as the
claim states would give `(-4, 44, -4, 4)`. -/
theorem c8_counterexample :
    autoBounds [(0, 0), (40, 0)] = (-1, 41, -1, 1) ∧
      autoBoundsSpec [(0, 0), (40, 0)] = (-4, 44, -4, 4) ∧
      autoBounds [(0, 0), (40, 0)] ≠ autoBoundsSpec [(0, 0), (40, 0)] := by
  refine ⟨?_, ?_, ?_⟩ <;> with_unfolding_all decide

/-- C8 (amended): the auto-computed window pads both axes by a fixed
margin of 1 world unit on each side (not by 10% of the larger span); as a
consequence every point of the layer lies strictly inside the window, so
no point falls exactly on the border. -/
theorem c8_amended (ps : List (ℚ × ℚ)) :
    ∀ p ∈ ps,
      (autoBounds ps).1 < p.1 ∧ p.1 < (autoBounds ps).2.1 ∧
        (autoBounds ps).2.2.1 < p.2 ∧ p.2 < (autoBounds ps).2.2.2 := by
  intro p hp
  have hx : p.1 ∈ ps.map Prod.fst := List.mem_map_of_mem _ hp
  have hy : p.2 ∈ ps.map Prod.snd := List.mem_map_of_mem _ hp
  have h1 := listMin_le hx
  have h2 := le_listMax hx
  have h3 := listMin_le hy
  have h4 := le_listMax hy
  refine ⟨?_, ?_, ?_, ?_⟩ <;> (simp only [autoBounds]; linarith)

/-- C8 (witness): the strict-interior law evaluated at the point
`(40, 0)` of a two-point layer. -/
theorem c8_witness :
    ((40 : ℚ), (0 : ℚ)) ∈ ([(0, 0), (40, 0)] : List (ℚ × ℚ)) ∧
      ((autoBounds [(0, 0), (40, 0)]).1 < 40 ∧
        (40 : ℚ) < (autoBounds [(0, 0), (40, 0)]).2.1 ∧
        (autoBounds [(0, 0), (40, 0)]).2.2.1 < 0 ∧
        (0 : ℚ) < (autoBounds [(0, 0), (40, 0)]).2.2.2) :=
  ⟨by with_unfolding_all decide,
   c8_amended [(0, 0), (40, 0)] (40, 0) (by with_unfolding_all decide)⟩

/-- C9: layer bucketing is a partition.  Summing bucket sizes over the
distinct keys gives the entry count (nothing dropped or duplicated); an
entry lies in the bucket of key `k` exactly when `k` is its own key; and
every entry recorded by a parse step is keyed by `round(z, 1)` of the
motion state's vertical ordinate at capture time. -/
theorem c9_layer_partition :
    (∀ es : List (ℚ × ℚ × ℚ),
      ∑ k ∈ (es.map Prod.fst).toFinset, (layerOf es k).length = es.length) ∧
    (∀ (es : List (ℚ × ℚ × ℚ)) (e : ℚ × ℚ × ℚ), e ∈ es →
      ∀ k : ℚ, (e ∈ es.filter (fun x => decide (x.1 = k))) ↔ k = e.1) ∧
    (∀ (s s' : CliState) (raw : Line), stepCli s raw = Except.ok s' →
      ∀ e ∈ s'.entries, e ∈ s.entries ∨
        (e.1 = round1 s'.pos.z ∧ e.2 = (s'.pos.x, s'.pos.y))) := by
  refine ⟨?_, ?_, ?_⟩
  · intro es
    have hcount : ∀ k : ℚ, Multiset.count k ((es.map Prod.fst : List ℚ) : Multiset ℚ) =
        (layerOf es k).length := by
      intro k
      rw [layerOf, List.length_map]
      rw [Multiset.coe_count, List.count_eq_countP, List.countP_eq_length_filter]
      rw [show (fun x : ℚ => x == k) = (fun z : ℚ => decide (z = k)) from rfl]
      rw [List.filter_map, List.length_map]
      rfl
    calc ∑ k ∈ (es.map Prod.fst).toFinset, (layerOf es k).length
        = ∑ k ∈ ((es.map Prod.fst : List ℚ) : Multiset ℚ).toFinset,
            Multiset.count k ((es.map Prod.fst : List ℚ) : Multiset ℚ) := by
          rw [List.toFinset_coe]
          exact Finset.sum_congr rfl (fun k _ => (hcount k).symm)
      _ = Multiset.card ((es.map Prod.fst : List ℚ) : Multiset ℚ) :=
          Multiset.toFinset_sum_count_eq _
      _ = es.length := by rw [Multiset.coe_card, List.length_map]
  · intro es e he k
    rw [List.mem_filter]
    constructor
    · rintro ⟨-, hk⟩
      exact (of_decide_eq_true hk).symm
    · intro hk
      exact ⟨he, decide_eq_true hk.symm⟩
  · intro s s' raw h e he
    have h2 := (stepCli_ok h).2
    rw [h2] at he
    rcases List.mem_append.mp he with h1 | h1
    · exact Or.inl h1
    · right
      split at h1
      · have he2 := List.mem_singleton.mp h1
        rw [he2]
        exact ⟨rfl, rfl⟩
      · exact absurd h1 (List.not_mem_nil e)

/-- C9 (witness): the bucket-membership law evaluated on a one-entry
list. -/
theorem c9_witness :
    ((3 : ℚ), (1 : ℚ), (2 : ℚ)) ∈ ([(3, 1, 2)] : List (ℚ × ℚ × ℚ)) ∧
      (((3 : ℚ), (1 : ℚ), (2 : ℚ)) ∈
          ([(3, 1, 2)] : List (ℚ × ℚ × ℚ)).filter (fun x => decide (x.1 = 3)) ↔
        (3 : ℚ) = (3 : ℚ)) :=
  ⟨by with_unfolding_all decide,
   c9_layer_partition.2.1 [(3, 1, 2)] (3, 1, 2) (by with_unfolding_all decide) 3⟩

/-- C10: outlier detection.  A point is flagged exactly when its radial
distance `sqrt(x² + y²)` exceeds `expected_radius + tolerance = 6.5`
(stated over ℝ via `Real.sqrt` against the embedded squared comparison);
`(7, 0)` is flagged and `(6.3, 0)` is not; the reported count is the
number of flagged points, and at most 5 representative outliers (all
actually flagged) are sampled for display. -/
theorem c10_outlier_detection :
    (∀ p : ℚ × ℚ × ℚ, outsideCylinder p = true ↔
      ((expectedRadius + 1/2 : ℚ) : ℝ) <
        Real.sqrt ((p.1 : ℝ) ^ 2 + (p.2.1 : ℝ) ^ 2)) ∧
    outsideCylinder (7, 0, 0) = true ∧
    outsideCylinder (63/10, 0, 0) = false ∧
    (∀ ps : List (ℚ × ℚ × ℚ),
      outlierCount ps = (ps.filter outsideCylinder).length) ∧
    (∀ ps : List (ℚ × ℚ × ℚ), (sampleOutliers ps).length ≤ 5 ∧
      ∀ p ∈ sampleOutliers ps, outsideCylinder p = true) := by
  refine ⟨?_, by with_unfolding_all decide, by with_unfolding_all decide,
    fun ps => rfl, ?_⟩
  · intro p
    rw [outsideCylinder, decide_eq_true_eq]
    rw [Real.lt_sqrt (by norm_num [expectedRadius])]
    exact_mod_cast Iff.rfl
  · intro ps
    refine ⟨List.length_take_le _ _, ?_⟩
    intro p hp
    exact (List.mem_filter.mp (List.mem_of_mem_take hp)).2

/-- C10 (witness): the flag law evaluated at the point `(7, 0, 0)`. -/
theorem c10_witness :
    outsideCylinder (7, 0, 0) = true ↔
      ((expectedRadius + 1/2 : ℚ) : ℝ) <
        Real.sqrt (((7 : ℚ) : ℝ) ^ 2 + ((0 : ℚ) : ℝ) ^ 2) :=
  c10_outlier_detection.1 (7, 0, 0)
